import Mathlib

/-!
Verification development for the Slack client normalization layer
(src/src/client/index.ts of burkeholland/vscode-chat).

Shallow embedding conventions:
- JavaScript strings are modelled as `List Char` (abbreviated `Str`).
- A possibly-absent (undefined) field is an `Option`.
- JavaScript string truthiness is non-emptiness (`jsTruthyStr`).
- Code that can raise a runtime TypeError (indexing `[0]` into an empty
  array and then reading a property) is modelled in `Except Unit`, where
  `Except.error ()` stands for the thrown exception / rejected promise.
- A JavaScript object used as a string-keyed map is an association list
  with unique keys; property writes are `objSet` (replace in place if the
  key exists, append otherwise) and property reads are `objGet`.
-/

abbrev Str := List Char

/-! ## Raw message payloads (shapes consumed by getMessage, lines 8-41) -/

structure RawFile where
  name : Str
  permalink : Str
  deriving DecidableEq

structure RawAttachment where
  author_name : Str
  author_icon : Str
  pretext : Str
  title : Str
  title_link : Str
  text : Str
  footer : Str
  color : Str
  deriving DecidableEq

structure RawReaction where
  name : Str
  count : Nat
  users : List Str
  deriving DecidableEq

structure RawMessage where
  ts : Str
  user : Option Str
  bot_id : Option Str
  text : Option Str
  edited : Option Str
  files : Option (List RawFile)
  attachments : Option (List RawAttachment)
  reactions : Option (List RawReaction)
  deriving DecidableEq

/-! ## Canonical message records -/

structure SlackContent where
  author : Str
  authorIcon : Str
  pretext : Str
  title : Str
  titleLink : Str
  text : Str
  footer : Str
  borderColor : Str
  deriving DecidableEq

structure SlackReaction where
  name : Str
  count : Nat
  userIds : List Str
  deriving DecidableEq

structure SlackFileAttachment where
  name : Str
  permalink : Str
  deriving DecidableEq

structure SlackMessage where
  userId : Option Str
  timestamp : Str
  isEdited : Bool
  text : Option Str
  attachment : Option SlackFileAttachment
  reactions : List SlackReaction
  content : SlackContent
  deriving DecidableEq

abbrev SlackChannelMessages := List (Str × SlackMessage)

/-- JavaScript truthiness of a possibly-absent string: present and non-empty. -/
def jsTruthyStr : Option Str → Bool
  | none => false
  | some s => decide (s ≠ [])

/-- Line 16 of the source: user ? user : bot_id. -/
def authorOf (raw : RawMessage) : Option Str :=
  if jsTruthyStr raw.user then raw.user else raw.bot_id

/-- The rich-content block with all eight fields empty. -/
def emptyContent : SlackContent :=
  ⟨[], [], [], [], [], [], [], []⟩

/-- Lines 10-12: files ? { name: files[0].name, permalink: files[0].permalink } : null.
Reading files[0].name of a present-but-empty files array throws. -/
def fileAtt (raw : RawMessage) : Except Unit (Option SlackFileAttachment) :=
  match raw.files with
  | none => Except.ok none
  | some [] => Except.error ()
  | some (f :: _) => Except.ok (some ⟨f.name, f.permalink⟩)

/-- Lines 28-37: each content field is attachments ? attachments[0].field : "".
Reading attachments[0].field of a present-but-empty array throws. -/
def contentOf (raw : RawMessage) : Except Unit SlackContent :=
  match raw.attachments with
  | none => Except.ok emptyContent
  | some [] => Except.error ()
  | some (a :: _) =>
      Except.ok ⟨a.author_name, a.author_icon, a.pretext, a.title, a.title_link,
                 a.text, a.footer, a.color⟩

/-- Lines 21-27: reactions ? reactions.map(...) : []. -/
def reactionsOf (raw : RawMessage) : List SlackReaction :=
  match raw.reactions with
  | none => []
  | some rs => rs.map (fun r => ⟨r.name, r.count, r.users⟩)

/-- Lines 8-41: the single-message normalizer. It builds exactly one record
under the raw timestamp key; array indexing into empty present arrays throws. -/
def getMessage (raw : RawMessage) : Except Unit SlackChannelMessages :=
  match fileAtt raw with
  | Except.error e => Except.error e
  | Except.ok fa =>
    match contentOf raw with
    | Except.error e => Except.error e
    | Except.ok c =>
        Except.ok [(raw.ts,
          ⟨authorOf raw, raw.ts, raw.edited.isSome, raw.text, fa, reactionsOf raw, c⟩)]

/-! ## JavaScript object-as-map primitives -/

/-- Property read: first binding of the key (keys are unique in maps built here). -/
def objGet {β : Type} : List (Str × β) → Str → Option β
  | [], _ => none
  | p :: t, k => if p.1 = k then some p.2 else objGet t k

/-- Property write: replace the existing binding in place, else append. -/
def objSet {β : Type} : List (Str × β) → Str → β → List (Str × β)
  | [], k, v => [(k, v)]
  | p :: t, k, v => if p.1 = k then (k, v) :: t else p :: objSet t k v

/-- Object spread of b over a (later keys win), for b with unique keys. -/
def jsSpread {β : Type} (a b : List (Str × β)) : List (Str × β) :=
  b.foldl (fun acc p => objSet acc p.1 p.2) a

/-- Keys of the association list are pairwise distinct. -/
def keysNodup {β : Type} (m : List (Str × β)) : Prop :=
  (m.map Prod.fst).Nodup

/-! ## Conversation history (lines 6 and 57-75) -/

def HISTORY_LIMIT : Nat := 50

structure HistoryCall where
  method : Str
  channel : Str
  limit : Nat

/-- Line 59: apiCall("conversations.history", { channel, limit: HISTORY_LIMIT }). -/
def getConversationHistoryCall (channel : Str) : HistoryCall :=
  ⟨"conversations.history".toList, channel, HISTORY_LIMIT⟩

structure HistoryResponse where
  ok : Bool
  messages : List RawMessage

/-- Lines 65-70: the forEach loop spreading getMessage over an accumulator.
A throw inside an iteration rejects the whole computation. -/
def historyFold : List RawMessage → SlackChannelMessages → Except Unit SlackChannelMessages
  | [], acc => Except.ok acc
  | m :: ms, acc =>
    match getMessage m with
    | Except.error e => Except.error e
    | Except.ok v => historyFold ms (jsSpread acc v)

/-- Lines 60-74: the response handler of getConversationHistory. -/
def getConversationHistory (resp : HistoryResponse) : Except Unit SlackChannelMessages :=
  if resp.ok then historyFold resp.messages [] else Except.ok []

/-! ## User directory (lines 77-95) -/

structure RawProfile where
  image_72 : Str
  deriving DecidableEq

structure RawMember where
  id : Str
  name : Str
  profile : RawProfile
  deriving DecidableEq

structure SlackUser where
  id : Str
  name : Str
  imageUrl : Str
  deriving DecidableEq

abbrev SlackUsers := List (Str × SlackUser)

structure UsersResponse where
  ok : Bool
  members : List RawMember

/-- Lines 79-94: getAllUsers response handler. The return statement sits inside
the if (ok) block, so an ok=false response resolves undefined (modelled none). -/
def getAllUsers (resp : UsersResponse) : Option SlackUsers :=
  if resp.ok then
    some (resp.members.foldl
      (fun us m => objSet us m.id ⟨m.id, m.name, m.profile.image_72⟩) [])
  else none

/-! ## Channel aggregation (lines 118-179)

The multi-party name decoding embeds the JavaScript regular expression
search name.match(/mpdm-([^-]+)((--[^-]+)*)-\d+/) faithfully: the match is
a substring search; each [^-]+ is a maximal run of non-hyphen characters
(shortening a run can never extend a match, because everything that may
follow a run starts with a hyphen while a shortened run leaves a non-hyphen
next); the starred group takes maximal iterations (whenever one more
iteration is possible the remainder starts with two hyphens, so the
trailing -digit part fails there too, and giving iterations back never
helps); the trailing \d+ needs one digit and the match need not reach the
end of the string. -/

/-- The maximal leading run of non-hyphen characters, and the rest. -/
def spanNH : List Char → List Char × List Char
  | [] => ([], [])
  | c :: t =>
    if c = '-' then ([], c :: t)
    else ((spanNH t).1.cons c, (spanNH t).2)

/-- Fuelled worker for the iterations of the group (--[^-]+): one unit of
fuel per iteration; each iteration consumes at least three characters, so the
input length is always enough fuel. -/
def eatItersF : Nat → List Char → List Char × List Char
  | 0, cs => ([], cs)
  | fuel + 1, cs =>
    match cs with
    | c1 :: c2 :: c3 :: rest =>
      if c1 = '-' ∧ c2 = '-' ∧ c3 ≠ '-' then
        (c1 :: c2 :: c3 :: ((spanNH rest).1 ++ (eatItersF fuel (spanNH rest).2).1),
         (eatItersF fuel (spanNH rest).2).2)
      else ([], cs)
    | _ => ([], cs)

/-- Maximal iterations of the group (--[^-]+): returns the consumed
characters (capture group 2) and the remainder. -/
def eatIters (cs : List Char) : List Char × List Char :=
  eatItersF cs.length cs

/-- Attempt to match mpdm-([^-]+)((--[^-]+)*)-\d+ at the head of the string,
returning capture groups 1 and 2. -/
def matchAt : List Char → Option (List Char × List Char)
  | c1 :: c2 :: c3 :: c4 :: c5 :: rest =>
    if c1 = 'm' ∧ c2 = 'p' ∧ c3 = 'd' ∧ c4 = 'm' ∧ c5 = '-' then
      match spanNH rest with
      | ([], _) => none
      | (g1, r1) =>
        match (eatIters r1).2 with
        | d1 :: d2 :: _ =>
          if d1 = '-' ∧ d2.isDigit then some (g1, (eatIters r1).1) else none
        | _ => none
    else none
  | _ => none

/-- The regex search: try to match at every successive start position. -/
def jsSearch (cs : List Char) : Option (List Char × List Char) :=
  match matchAt cs with
  | some r => some r
  | none =>
    match cs with
    | [] => none
    | _ :: t => jsSearch t

/-- JavaScript String.prototype.split on the two-character separator "--". -/
def splitDD (cs : List Char) : List (List Char) :=
  match cs with
  | c1 :: c2 :: rest =>
    if c1 = '-' ∧ c2 = '-' then [] :: splitDD rest
    else
      match splitDD (c2 :: rest) with
      | h :: t => (c1 :: h) :: t
      | [] => [[c1]]
  | [c] => [[c]]
  | [] => [[]]
termination_by cs.length
decreasing_by
  all_goals simp only [List.length_cons]
  all_goals omega

/-- JavaScript Array.prototype.join(", "). -/
def joinComma : List Str → Str
  | [] => []
  | [x] => x
  | x :: y :: t => x ++ ',' :: ' ' :: joinComma (y :: t)

/-- Lines 137-154: the display name of a group entry. -/
def groupName (is_mpim : Bool) (name : Str) : Str :=
  match is_mpim with
  | true =>
    match jsSearch name with
    | some (first, grp2) =>
        joinComma
          ((first :: (splitDD grp2).filter (fun e => decide (e ≠ []))).map
            (fun e => '@' :: e))
    | none => name
  | false => '#' :: name

/-! ## The three channel segments and their combination -/

structure RawChannel where
  id : Str
  name : Str
  deriving DecidableEq

structure RawGroup where
  id : Str
  name : Str
  is_mpim : Bool
  deriving DecidableEq

structure RawIM where
  id : Str
  user : Str
  deriving DecidableEq

structure SlackChannel where
  id : Str
  name : Str
  type : Str
  deriving DecidableEq

structure ChannelsResponse where
  ok : Bool
  channels : List RawChannel

structure GroupsResponse where
  ok : Bool
  groups : List RawGroup

structure IMsResponse where
  ok : Bool
  ims : List RawIM

/-- Lines 119-130: the public-channel segment. The handler returns inside
if (ok) only, so an ok=false response resolves undefined (modelled none). -/
def channelsSegment (resp : ChannelsResponse) : Option (List SlackChannel) :=
  if resp.ok then
    some (resp.channels.map (fun c => ⟨c.id, '#' :: c.name, "channel".toList⟩))
  else none

/-- Lines 131-163: the group segment. -/
def groupsSegment (resp : GroupsResponse) : Option (List SlackChannel) :=
  if resp.ok then
    some (resp.groups.map (fun g => ⟨g.id, groupName g.is_mpim g.name, "group".toList⟩))
  else none

/-- Line 169: the derived direct-message name. -/
def dmName (users : SlackUsers) (uid : Str) : Str :=
  '@' :: (match objGet users uid with
          | some u => u.name
          | none => uid)

/-- Lines 164-173: the direct-message segment. -/
def directsSegment (users : SlackUsers) (resp : IMsResponse) : Option (List SlackChannel) :=
  if resp.ok then
    some (resp.ims.map (fun im => ⟨im.id, dmName users im.user, "im".toList⟩))
  else none

/-- Line 176: [].concat(...values). Array arguments are spread element-wise;
an undefined argument is appended as a single (undefined) element. -/
def jsConcat {α : Type} (vs : List (Option (List α))) : List (Option α) :=
  (vs.map (fun v =>
    match v with
    | some l => l.map some
    | none => [none])).flatten

/-- Lines 118-179: getChannels, applied to the three remote responses. -/
def getChannels (users : SlackUsers) (rc : ChannelsResponse) (rg : GroupsResponse)
    (rd : IMsResponse) : List (Option SlackChannel) :=
  jsConcat [channelsSegment rc, groupsSegment rg, directsSegment users rd]

/-! ## Concrete inputs used by counterexamples and witnesses -/

/-- A raw entry whose files and attachments arrays are present but empty
and which carries neither a user nor a bot id. -/
def rawThrowInput : RawMessage :=
  ⟨"1".toList, none, none, none, none, some [], some [], none⟩

/-- A raw entry whose user field is present but the empty string, with a bot id. -/
def rawEmptyUserInput : RawMessage :=
  ⟨"1".toList, some [], some "B1".toList, none, none, none, none, none⟩

/-- The record getMessage produces for rawEmptyUserInput. -/
def recOfEmptyUserInput : SlackMessage :=
  ⟨some "B1".toList, "1".toList, false, none, none, [], emptyContent⟩

/-- A plain raw entry with a user and no optional payloads. -/
def rawPlainInput : RawMessage :=
  ⟨"1".toList, some "u".toList, none, none, none, none, none, none⟩

/-- Two history entries sharing the timestamp key "1" with different texts. -/
def rawDupA : RawMessage :=
  ⟨"1".toList, some "u".toList, none, some "a".toList, none, none, none, none⟩

def rawDupB : RawMessage :=
  ⟨"1".toList, some "u".toList, none, some "b".toList, none, none, none, none⟩

/-- The record getMessage produces for rawDupB. -/
def recDupB : SlackMessage :=
  ⟨some "u".toList, "1".toList, false, some "b".toList, none, [], emptyContent⟩

/-! ## Helper lemmas -/

theorem spanNH_pref (a : List Char) (r : List Char) (ha : '-' ∉ a) :
    spanNH (a ++ '-' :: r) = (a, '-' :: r) := by
  induction a with
  | nil => simp [spanNH]
  | cons c t ih =>
    have hc : c ≠ '-' := fun h => ha (by rw [h]; exact List.mem_cons_self _ _)
    have ht : '-' ∉ t := fun h => ha (List.mem_cons_of_mem _ h)
    simp only [List.cons_append, spanNH, hc, if_false, List.append_eq, ih ht]

theorem spanNH_snd_le (l : List Char) : (spanNH l).2.length ≤ l.length := by
  induction l with
  | nil => simp [spanNH]
  | cons c t ih =>
    by_cases h : c = '-'
    · simp [spanNH, h]
    · simp only [spanNH, h, if_false, List.length_cons]
      omega

theorem eatItersF_fuel (fuel : Nat) :
    ∀ cs : List Char, cs.length ≤ fuel → eatItersF fuel cs = eatIters cs := by
  induction fuel using Nat.strong_induction_on with
  | _ fuel ih =>
    intro cs hlen
    match fuel, cs with
    | 0, cs =>
      have hnil : cs = [] := List.eq_nil_of_length_eq_zero (Nat.le_zero.mp hlen)
      rw [hnil]
      rfl
    | f + 1, [] => rfl
    | f + 1, [c1] => rfl
    | f + 1, [c1, c2] => rfl
    | f + 1, c1 :: c2 :: c3 :: rest =>
      simp only [List.length_cons] at hlen
      have hr : rest.length + 2 ≤ f := by omega
      by_cases hcond : c1 = '-' ∧ c2 = '-' ∧ c3 ≠ '-'
      · have h1 : eatItersF f (spanNH rest).2 = eatIters (spanNH rest).2 :=
          ih f (Nat.lt_succ_self f) _
            (le_trans (spanNH_snd_le rest) (by omega))
        have h2 : eatItersF (rest.length + 2) (spanNH rest).2 = eatIters (spanNH rest).2 :=
          ih (rest.length + 2) (by omega) _
            (le_trans (spanNH_snd_le rest) (by omega))
        show eatItersF (f + 1) (c1 :: c2 :: c3 :: rest)
          = eatItersF (rest.length + 3) (c1 :: c2 :: c3 :: rest)
        rw [show rest.length + 3 = (rest.length + 2) + 1 from rfl]
        rw [eatItersF, eatItersF]
        rw [if_pos hcond, if_pos hcond, h1, h2]
      · show eatItersF (f + 1) (c1 :: c2 :: c3 :: rest)
          = eatItersF (rest.length + 3) (c1 :: c2 :: c3 :: rest)
        rw [show rest.length + 3 = (rest.length + 2) + 1 from rfl]
        rw [eatItersF, eatItersF]
        rw [if_neg hcond, if_neg hcond]

theorem eatIters_iter (c : Char) (rest : List Char) (hc : c ≠ '-') :
    eatIters ('-' :: '-' :: c :: rest) =
      ('-' :: '-' :: c :: ((spanNH rest).1 ++ (eatIters (spanNH rest).2).1),
       (eatIters (spanNH rest).2).2) := by
  show eatItersF (rest.length + 3) ('-' :: '-' :: c :: rest) = _
  rw [show rest.length + 3 = (rest.length + 2) + 1 from rfl]
  rw [eatItersF]
  rw [if_pos ⟨rfl, rfl, hc⟩]
  rw [eatItersF_fuel (rest.length + 2) _
    (le_trans (spanNH_snd_le rest) (by omega))]

theorem eatIters_dash (d : Char) (r : List Char) (hd : d ≠ '-') :
    eatIters ('-' :: d :: r) = ([], '-' :: d :: r) := by
  cases r with
  | nil => rfl
  | cons x t =>
    show eatItersF (t.length + 3) ('-' :: d :: x :: t) = _
    rw [show t.length + 3 = (t.length + 2) + 1 from rfl]
    rw [eatItersF]
    rw [if_neg (by intro hx; exact hd hx.2.1)]

theorem splitDD_nohyph (l : List Char) (h : '-' ∉ l) : splitDD l = [l] := by
  induction l with
  | nil => rw [splitDD]
  | cons c t ih =>
    have hc : c ≠ '-' := fun hx => h (by rw [hx]; exact List.mem_cons_self _ _)
    have ht : '-' ∉ t := fun hx => h (List.mem_cons_of_mem _ hx)
    cases t with
    | nil => rw [splitDD]
    | cons y t2 =>
      rw [splitDD]
      simp only [hc, false_and, if_false]
      rw [ih ht]

theorem getMessage_shape (raw : RawMessage) (v : SlackChannelMessages)
    (h : getMessage raw = Except.ok v) :
    ∃ fa c, v = [(raw.ts,
      ⟨authorOf raw, raw.ts, raw.edited.isSome, raw.text, fa, reactionsOf raw, c⟩)] := by
  cases hf : fileAtt raw with
  | error e =>
    have hm : getMessage raw = Except.error e := by
      unfold getMessage; simp only [hf]
    rw [hm] at h
    exact absurd h (by simp)
  | ok fa =>
    cases hc : contentOf raw with
    | error e =>
      have hm : getMessage raw = Except.error e := by
        unfold getMessage; simp only [hf, hc]
      rw [hm] at h
      exact absurd h (by simp)
    | ok c =>
      have hm : getMessage raw = Except.ok [(raw.ts,
          ⟨authorOf raw, raw.ts, raw.edited.isSome, raw.text, fa, reactionsOf raw, c⟩)] := by
        unfold getMessage; simp only [hf, hc]
      rw [hm] at h
      injection h with h2
      exact ⟨fa, c, h2.symm⟩

theorem objGet_objSet_self {β : Type} (m : List (Str × β)) (k : Str) (v : β) :
    objGet (objSet m k v) k = some v := by
  induction m with
  | nil => simp [objSet, objGet]
  | cons p t ih =>
    by_cases hp : p.1 = k
    · simp [objSet, hp, objGet]
    · simp [objSet, hp, objGet, ih]

theorem objGet_objSet_ne {β : Type} (m : List (Str × β)) (k k' : Str) (v : β)
    (h : k' ≠ k) : objGet (objSet m k v) k' = objGet m k' := by
  have hne : ¬ k = k' := fun hx => h hx.symm
  induction m with
  | nil => simp [objSet, objGet, hne]
  | cons p t ih =>
    by_cases hp : p.1 = k
    · have hne2 : ¬ p.1 = k' := by rw [hp]; exact hne
      simp [objSet, hp, objGet, hne, hne2]
    · by_cases hpk : p.1 = k'
      · simp [objSet, hp, objGet, hpk, h]
      · simp [objSet, hp, objGet, hpk, ih]

theorem objSet_keys {β : Type} (m : List (Str × β)) (k : Str) (v : β) :
    (objSet m k v).map Prod.fst =
      if k ∈ m.map Prod.fst then m.map Prod.fst else m.map Prod.fst ++ [k] := by
  induction m with
  | nil => simp [objSet]
  | cons p t ih =>
    by_cases hp : p.1 = k
    · rw [show objSet (p :: t) k v = (k, v) :: t by rw [objSet, if_pos hp]]
      rw [List.map_cons, List.map_cons,
        if_pos (by rw [← hp]; exact List.mem_cons_self _ _), hp]
    · rw [show objSet (p :: t) k v = p :: objSet t k v by rw [objSet, if_neg hp]]
      rw [List.map_cons, List.map_cons, ih]
      by_cases hmem : k ∈ t.map Prod.fst
      · rw [if_pos hmem, if_pos (List.mem_cons_of_mem _ hmem)]
      · have hn : k ∉ p.1 :: t.map Prod.fst := by
          intro hx
          rcases List.mem_cons.mp hx with hx | hx
          · exact hp hx.symm
          · exact hmem hx
        rw [if_neg hmem, if_neg hn, List.cons_append]

theorem objSet_keysNodup {β : Type} (m : List (Str × β)) (k : Str) (v : β)
    (h : keysNodup m) : keysNodup (objSet m k v) := by
  unfold keysNodup at h ⊢
  rw [objSet_keys]
  by_cases hmem : k ∈ m.map Prod.fst
  · rw [if_pos hmem]; exact h
  · rw [if_neg hmem, List.nodup_append]
    refine ⟨h, List.nodup_singleton k, ?_⟩
    intro a ha hb
    rw [List.mem_singleton] at hb
    rw [hb] at ha
    exact hmem ha

theorem lastq_cons_ne {α : Type} (x : α) (l : List α) (h : l ≠ []) :
    (x :: l).getLast? = l.getLast? := by
  cases l with
  | nil => exact absurd rfl h
  | cons y t => exact List.getLast?_cons_cons

theorem lastq_mem {α : Type} (l : List α) (a : α) (h : l.getLast? = some a) : a ∈ l := by
  induction l with
  | nil => simp [List.getLast?] at h
  | cons x t ih =>
    cases t with
    | nil =>
      simp only [List.getLast?_singleton, Option.some.injEq] at h
      rw [h]; exact List.mem_cons_self _ _
    | cons y t2 =>
      rw [List.getLast?_cons_cons] at h
      exact List.mem_cons_of_mem _ (ih h)

theorem countP_key_one {β : Type} (m : List (Str × β)) (k : Str) (v : β)
    (hnd : keysNodup m) (h : objGet m k = some v) :
    m.countP (fun p => decide (p.1 = k)) = 1 := by
  induction m with
  | nil => simp [objGet] at h
  | cons p t ih =>
    unfold keysNodup at hnd
    rw [List.map_cons, List.nodup_cons] at hnd
    by_cases hp : p.1 = k
    · rw [List.countP_cons]
      have ht : t.countP (fun p => decide (p.1 = k)) = 0 := by
        rw [List.countP_eq_zero]
        intro q hq hqk
        have : q.1 = k := of_decide_eq_true hqk
        exact hnd.1 (by rw [hp, ← this]; exact List.mem_map_of_mem Prod.fst hq)
      simp [ht, hp]
    · rw [List.countP_cons]
      have h2 : objGet t k = some v := by
        unfold objGet at h
        rwa [if_neg hp] at h
      simp [hp, ih hnd.2 h2]

theorem lastq_cons_ne_none {α : Type} (x : α) (l : List α) : (x :: l).getLast? ≠ none :=
  fun h => List.cons_ne_nil x l (List.getLast?_eq_none_iff.mp h)

theorem historyFold_cons_err (m : RawMessage) (ms : List RawMessage)
    (acc : SlackChannelMessages) (e : Unit) (hg : getMessage m = Except.error e) :
    historyFold (m :: ms) acc = Except.error e := by
  unfold historyFold
  simp only [hg]

theorem historyFold_cons_ok (m : RawMessage) (ms : List RawMessage)
    (acc v : SlackChannelMessages) (hg : getMessage m = Except.ok v) :
    historyFold (m :: ms) acc = historyFold ms (jsSpread acc v) := by
  conv_lhs => rw [historyFold]
  rw [hg]

theorem jsSpread_single {β : Type} (a : List (Str × β)) (k : Str) (w : β) :
    jsSpread a [(k, w)] = objSet a k w := rfl

theorem historyFold_lookup (ts : Str) (ms : List RawMessage) :
    ∀ (acc M : SlackChannelMessages), historyFold ms acc = Except.ok M →
      ((ms.filter (fun m => decide (m.ts = ts))).getLast? = none →
        objGet M ts = objGet acc ts)
      ∧ (∀ mlast, (ms.filter (fun m => decide (m.ts = ts))).getLast? = some mlast →
          ∃ rec, getMessage mlast = Except.ok [(mlast.ts, rec)] ∧ objGet M ts = some rec) := by
  induction ms with
  | nil =>
    intro acc M h
    unfold historyFold at h
    have hM : acc = M := by injection h
    constructor
    · intro _; rw [hM]
    · intro mlast hl; simp at hl
  | cons m ms ih =>
    intro acc M h
    cases hg : getMessage m with
    | error e =>
      rw [historyFold_cons_err m ms acc e hg] at h
      exact absurd h (by simp)
    | ok v =>
      rw [historyFold_cons_ok m ms acc v hg] at h
      obtain ⟨fa, c, rfl⟩ := getMessage_shape m v hg
      rw [jsSpread_single] at h
      have IH := ih _ M h
      by_cases hts : m.ts = ts
      · have hf : (m :: ms).filter (fun m => decide (m.ts = ts)) =
            m :: ms.filter (fun m => decide (m.ts = ts)) := by
          rw [List.filter_cons, if_pos (by simp [hts])]
        constructor
        · intro hnone
          rw [hf] at hnone
          exact absurd hnone (lastq_cons_ne_none _ _)
        · intro mlast hl
          rw [hf] at hl
          by_cases hfe : ms.filter (fun m => decide (m.ts = ts)) = []
          · rw [hfe] at hl
            simp only [List.getLast?_singleton, Option.some.injEq] at hl
            have hnone : (ms.filter (fun m => decide (m.ts = ts))).getLast? = none := by
              rw [hfe]; rfl
            have hacc := IH.1 hnone
            refine ⟨⟨authorOf m, m.ts, m.edited.isSome, m.text, fa, reactionsOf m, c⟩,
              ?_, ?_⟩
            · rw [← hl]; exact hg
            · rw [hacc, ← hts, objGet_objSet_self]
          · rw [lastq_cons_ne _ _ hfe] at hl
            exact IH.2 mlast hl
      · have hf : (m :: ms).filter (fun m => decide (m.ts = ts)) =
            ms.filter (fun m => decide (m.ts = ts)) := by
          rw [List.filter_cons, if_neg (by simp [hts])]
        constructor
        · intro hnone
          rw [hf] at hnone
          rw [IH.1 hnone, objGet_objSet_ne _ _ _ _ (fun hx => hts hx.symm)]
        · intro mlast hl
          rw [hf] at hl
          exact IH.2 mlast hl

theorem historyFold_nodup (ms : List RawMessage) :
    ∀ (acc M : SlackChannelMessages), keysNodup acc →
      historyFold ms acc = Except.ok M → keysNodup M := by
  induction ms with
  | nil =>
    intro acc M hnd h
    unfold historyFold at h
    have hM : acc = M := by injection h
    rwa [← hM]
  | cons m ms ih =>
    intro acc M hnd h
    cases hg : getMessage m with
    | error e =>
      rw [historyFold_cons_err m ms acc e hg] at h
      exact absurd h (by simp)
    | ok v =>
      rw [historyFold_cons_ok m ms acc v hg] at h
      obtain ⟨fa, c, rfl⟩ := getMessage_shape m v hg
      rw [jsSpread_single] at h
      exact ih _ M (objSet_keysNodup _ _ _ hnd) h

/-! ## Claim theorems -/

/-- C1 (code evaluation at the failing input): with the public-channel response
reporting ok=false and the other two segments succeeding with empty lists, the
combined list returned by getChannels is not empty: it contains one undefined
element contributed by the failing segment, so its length is 1, not the sum 0
of the successful segments' lengths. -/
theorem c1_failing_segment_inserts_undefined :
    getChannels [] ⟨false, []⟩ ⟨true, []⟩ ⟨true, []⟩ = [none]
    ∧ (getChannels [] ⟨false, []⟩ ⟨true, []⟩ ⟨true, []⟩).length ≠ 0 :=
  ⟨rfl, by decide⟩

/-- C4 (code evaluation at the failing input): on an ok=false users.list
response, getAllUsers resolves undefined (modelled none), which is not an
empty or partial user mapping. -/
theorem c4_users_failure_yields_undefined :
    getAllUsers ⟨false, []⟩ = none ∧ getAllUsers ⟨false, []⟩ ≠ some [] :=
  ⟨rfl, by decide⟩

/-- C9: the crafted response with ok=true and a single member U1/alice/url is
normalized by getAllUsers to exactly the one-entry mapping U1 to
(id U1, name alice, imageUrl url). -/
theorem c9_users_roundtrip :
    getAllUsers ⟨true, [⟨"U1".toList, "alice".toList, ⟨"url".toList⟩⟩]⟩
      = some [("U1".toList, ⟨"U1".toList, "alice".toList, "url".toList⟩)] := rfl

/-- C5: the conversation-history call fixes limit = 50; the response handler
returns the empty mapping exactly on ok=false, and on ok=true it is the fold
of every returned entry through getMessage (object-spread accumulation),
starting from the empty mapping. -/
theorem c5_history_fold_policy :
    (∀ channel : Str, (getConversationHistoryCall channel).limit = 50)
    ∧ (∀ resp : HistoryResponse, resp.ok = false →
        getConversationHistory resp = Except.ok [])
    ∧ (∀ resp : HistoryResponse, resp.ok = true →
        getConversationHistory resp = historyFold resp.messages []) := by
  refine ⟨fun _ => rfl, fun resp h => ?_, fun resp h => ?_⟩
  · simp [getConversationHistory, h]
  · simp [getConversationHistory, h]

/-- C5 witness: the theorem applied at a concrete channel and at concrete
failing and succeeding responses. -/
theorem c5_history_fold_policy_witness :
    (getConversationHistoryCall "C1".toList).limit = 50
    ∧ getConversationHistory ⟨false, [rawDupA]⟩ = Except.ok []
    ∧ getConversationHistory ⟨true, [rawDupA]⟩ = historyFold [rawDupA] [] :=
  ⟨c5_history_fold_policy.1 "C1".toList,
   c5_history_fold_policy.2.1 ⟨false, [rawDupA]⟩ rfl,
   c5_history_fold_policy.2.2 ⟨true, [rawDupA]⟩ rfl⟩

/-- C7: the derived direct-message channel name is the looked-up display name
prefixed with an at-sign when the partner id is present in the user directory,
and the raw id prefixed with an at-sign when absent; the direct-message
segment applies exactly this name derivation to every entry. -/
theorem c7_dm_name_lookup :
    (∀ (users : SlackUsers) (uid : Str) (u : SlackUser),
        objGet users uid = some u → dmName users uid = '@' :: u.name)
    ∧ (∀ (users : SlackUsers) (uid : Str),
        objGet users uid = none → dmName users uid = '@' :: uid)
    ∧ (∀ (users : SlackUsers) (resp : IMsResponse), resp.ok = true →
        directsSegment users resp = some (resp.ims.map
          (fun im => ⟨im.id, dmName users im.user, "im".toList⟩))) := by
  refine ⟨?_, ?_, ?_⟩
  · intro users uid u h
    unfold dmName
    rw [h]
  · intro users uid h
    unfold dmName
    rw [h]
  · intro users resp h
    simp [directsSegment, h]

/-- C7 witness: the theorem applied at a one-entry directory, for a present
partner id, an absent partner id, and a succeeding response. -/
theorem c7_dm_name_lookup_witness :
    objGet [("U".toList, (⟨"U".toList, "ali".toList, "i".toList⟩ : SlackUser))]
        "U".toList = some ⟨"U".toList, "ali".toList, "i".toList⟩
    ∧ dmName [("U".toList, ⟨"U".toList, "ali".toList, "i".toList⟩)] "U".toList
        = '@' :: "ali".toList
    ∧ objGet [("U".toList, (⟨"U".toList, "ali".toList, "i".toList⟩ : SlackUser))]
        "V".toList = none
    ∧ dmName [("U".toList, ⟨"U".toList, "ali".toList, "i".toList⟩)] "V".toList
        = '@' :: "V".toList
    ∧ directsSegment [("U".toList, ⟨"U".toList, "ali".toList, "i".toList⟩)]
        ⟨true, []⟩ = some [] :=
  ⟨by decide,
   c7_dm_name_lookup.1 _ "U".toList ⟨"U".toList, "ali".toList, "i".toList⟩ (by decide),
   by decide,
   c7_dm_name_lookup.2.1 _ "V".toList (by decide),
   c7_dm_name_lookup.2.2 _ ⟨true, []⟩ rfl⟩

/-- C8: a raw entry lacking files, attachments and reactions normalizes to a
single record under its timestamp with a null attachment, the all-empty
rich-content block and an empty reaction list, without throwing. -/
theorem c8_defaults_on_absent_fields :
    ∀ raw : RawMessage, raw.files = none → raw.attachments = none →
      raw.reactions = none →
      getMessage raw = Except.ok [(raw.ts,
        ⟨authorOf raw, raw.ts, raw.edited.isSome, raw.text, none, [], emptyContent⟩)] := by
  intro raw h1 h2 h3
  unfold getMessage fileAtt contentOf reactionsOf
  simp only [h1, h2, h3]

/-- C8 witness: the theorem applied at a concrete raw entry with no optional
payloads. -/
theorem c8_defaults_on_absent_fields_witness :
    rawPlainInput.files = none ∧ rawPlainInput.attachments = none
    ∧ rawPlainInput.reactions = none
    ∧ getMessage rawPlainInput = Except.ok [("1".toList,
        ⟨some "u".toList, "1".toList, false, none, none, [], emptyContent⟩)] :=
  ⟨rfl, rfl, rfl, c8_defaults_on_absent_fields rawPlainInput rfl rfl rfl⟩

/-- C3 counterexample: at a raw entry with neither user nor bot_id and with
present-but-empty files and attachments arrays, getMessage throws (the model
returns the error standing for the TypeError on files[0].name), so it
produces no record at all, hence no record whose author is a user or bot id. -/
theorem c3_counterexample :
    getMessage rawThrowInput = Except.error ()
    ∧ rawThrowInput.user = none ∧ rawThrowInput.bot_id = none :=
  ⟨rfl, rfl, rfl⟩

/-- C3 as amended: for every raw entry that carries a truthy user or a bot id,
and whose files and attachments fields are each absent or non-empty,
getMessage does not throw; it yields one record under the timestamp whose
author is present and equals the user field (when truthy) or else the bot id,
and each absent optional field degrades to its empty or null default. -/
theorem c3_amended_message_safety :
    ∀ raw : RawMessage,
      (jsTruthyStr raw.user = true ∨ raw.bot_id.isSome = true) →
      raw.files ≠ some [] →
      raw.attachments ≠ some [] →
      ∃ rec : SlackMessage,
        getMessage raw = Except.ok [(raw.ts, rec)]
        ∧ rec.userId.isSome = true
        ∧ (∀ u : Str, raw.user = some u → u ≠ [] → rec.userId = some u)
        ∧ ((raw.user = none ∨ raw.user = some []) → rec.userId = raw.bot_id)
        ∧ (raw.files = none → rec.attachment = none)
        ∧ (raw.attachments = none → rec.content = emptyContent)
        ∧ (raw.reactions = none → rec.reactions = [])
        ∧ rec.text = raw.text
        ∧ rec.isEdited = raw.edited.isSome := by
  intro raw hauth hfiles hatts
  have hfa : ∃ fa, fileAtt raw = Except.ok fa ∧ (raw.files = none → fa = none) := by
    cases hf : raw.files with
    | none => exact ⟨none, by unfold fileAtt; rw [hf], fun _ => rfl⟩
    | some l =>
      cases l with
      | nil => exact absurd hf hfiles
      | cons f fs =>
        exact ⟨some ⟨f.name, f.permalink⟩, by unfold fileAtt; rw [hf],
          fun hx => absurd hx (by simp)⟩
  have hca : ∃ c, contentOf raw = Except.ok c
      ∧ (raw.attachments = none → c = emptyContent) := by
    cases hc : raw.attachments with
    | none => exact ⟨emptyContent, by unfold contentOf; rw [hc], fun _ => rfl⟩
    | some l =>
      cases l with
      | nil => exact absurd hc hatts
      | cons a rest =>
        exact ⟨⟨a.author_name, a.author_icon, a.pretext, a.title, a.title_link,
          a.text, a.footer, a.color⟩, by unfold contentOf; rw [hc],
          fun hx => absurd hx (by simp)⟩
  obtain ⟨fa, hfa1, hfa2⟩ := hfa
  obtain ⟨c, hca1, hca2⟩ := hca
  refine ⟨⟨authorOf raw, raw.ts, raw.edited.isSome, raw.text, fa, reactionsOf raw, c⟩,
    ?_, ?_, ?_, ?_, fun h => hfa2 h, fun h => hca2 h, fun h => by simp [reactionsOf, h],
    rfl, rfl⟩
  · unfold getMessage
    simp only [hfa1, hca1]
  · unfold authorOf
    by_cases ht : jsTruthyStr raw.user
    · rw [if_pos ht]
      cases hu : raw.user with
      | none => rw [hu] at ht; exact absurd ht (by simp [jsTruthyStr])
      | some u => rfl
    · rw [if_neg ht]
      rcases hauth with hauth | hauth
      · exact absurd hauth ht
      · exact hauth
  · intro u hu hne
    show authorOf raw = some u
    unfold authorOf
    rw [hu]
    simp [jsTruthyStr, hne]
  · intro hdisj
    show authorOf raw = raw.bot_id
    unfold authorOf
    rcases hdisj with hu | hu <;> rw [hu] <;> simp [jsTruthyStr]

/-- C3 amended witness: the theorem applied at a concrete raw entry with a
user, no bot id, and all optional payloads absent. -/
theorem c3_amended_message_safety_witness :
    (jsTruthyStr rawPlainInput.user = true ∨ rawPlainInput.bot_id.isSome = true)
    ∧ rawPlainInput.files ≠ some []
    ∧ rawPlainInput.attachments ≠ some []
    ∧ ∃ rec : SlackMessage,
        getMessage rawPlainInput = Except.ok [(rawPlainInput.ts, rec)]
        ∧ rec.userId.isSome = true
        ∧ (∀ u : Str, rawPlainInput.user = some u → u ≠ [] → rec.userId = some u)
        ∧ ((rawPlainInput.user = none ∨ rawPlainInput.user = some []) →
            rec.userId = rawPlainInput.bot_id)
        ∧ (rawPlainInput.files = none → rec.attachment = none)
        ∧ (rawPlainInput.attachments = none → rec.content = emptyContent)
        ∧ (rawPlainInput.reactions = none → rec.reactions = [])
        ∧ rec.text = rawPlainInput.text
        ∧ rec.isEdited = rawPlainInput.edited.isSome :=
  ⟨Or.inl (by decide), by decide, by decide,
   c3_amended_message_safety rawPlainInput (Or.inl (by decide)) (by decide) (by decide)⟩

/-- C6 counterexample: at a raw entry whose user field is present but the
empty string and whose bot_id is B1, the normalized record's author id is the
bot id, not the user field, refuting the claim for entries with a user field. -/
theorem c6_counterexample :
    getMessage rawEmptyUserInput = Except.ok [("1".toList, recOfEmptyUserInput)]
    ∧ rawEmptyUserInput.user = some []
    ∧ recOfEmptyUserInput.userId ≠ rawEmptyUserInput.user :=
  ⟨rfl, rfl, by decide⟩

/-- C6 as amended: the author id equals the user field whenever it is present
and non-empty; when the user field is absent or empty and a bot id is present,
the author id equals the bot id; and the record built by getMessage carries
exactly this author resolution. -/
theorem c6_amended_author_resolution :
    (∀ (raw : RawMessage) (u : Str), raw.user = some u → u ≠ [] →
        authorOf raw = some u)
    ∧ (∀ (raw : RawMessage) (b : Str),
        (raw.user = none ∨ raw.user = some []) → raw.bot_id = some b →
        authorOf raw = some b)
    ∧ (∀ (raw : RawMessage) (v : SlackChannelMessages) (rec : SlackMessage),
        getMessage raw = Except.ok v → objGet v raw.ts = some rec →
        rec.userId = authorOf raw) := by
  refine ⟨?_, ?_, ?_⟩
  · intro raw u hu hne
    unfold authorOf
    rw [hu]
    simp [jsTruthyStr, hne]
  · intro raw b hdisj hb
    rcases hdisj with hu | hu
    · unfold authorOf
      rw [hu, hb]
      simp [jsTruthyStr]
    · unfold authorOf
      rw [hu, hb]
      simp [jsTruthyStr]
  · intro raw v rec hok hget
    obtain ⟨fa, c, rfl⟩ := getMessage_shape raw v hok
    unfold objGet at hget
    rw [if_pos rfl] at hget
    injection hget with h2
    rw [← h2]

/-- C6 amended witness: the theorem applied at a concrete entry with a
non-empty user, at a concrete entry with an empty user and a bot id, and at
the record getMessage builds for the former. -/
theorem c6_amended_author_resolution_witness :
    (rawPlainInput.user = some "u".toList ∧ "u".toList ≠ []
      ∧ authorOf rawPlainInput = some "u".toList)
    ∧ (rawEmptyUserInput.user = some [] ∧ rawEmptyUserInput.bot_id = some "B1".toList
      ∧ authorOf rawEmptyUserInput = some "B1".toList)
    ∧ (getMessage rawPlainInput = Except.ok [("1".toList,
        ⟨some "u".toList, "1".toList, false, none, none, [], emptyContent⟩)]
      ∧ (⟨some "u".toList, "1".toList, false, none, none, [], emptyContent⟩
          : SlackMessage).userId = authorOf rawPlainInput) :=
  ⟨⟨rfl, by decide, c6_amended_author_resolution.1 rawPlainInput "u".toList rfl (by decide)⟩,
   ⟨rfl, rfl, c6_amended_author_resolution.2.1 rawEmptyUserInput "B1".toList (Or.inr rfl) rfl⟩,
   ⟨rfl, c6_amended_author_resolution.2.2 rawPlainInput
      [("1".toList, ⟨some "u".toList, "1".toList, false, none, none, [], emptyContent⟩)]
      ⟨some "u".toList, "1".toList, false, none, none, [], emptyContent⟩ rfl rfl⟩⟩

/-- C2: multi-party group names of the exact shape mpdm-a--b-n (a, b non-empty
hyphen-free member tokens, n a non-empty digit string) decode to a comma-joined
list of at-prefixed members with the numeric suffix discarded; multi-party
names on which the regex search fails are kept verbatim; non-multi-party group
names are prefixed with a hash sign. -/
theorem c2_group_name_derivation :
    (∀ a b n : Str, a ≠ [] → '-' ∉ a → b ≠ [] → '-' ∉ b → n ≠ [] →
        (∀ ch ∈ n, ch.isDigit = true) →
        groupName true
            ("mpdm-".toList ++ (a ++ ("--".toList ++ (b ++ ("-".toList ++ n))))) =
          "@".toList ++ (a ++ (", @".toList ++ b)))
    ∧ (∀ name : Str, jsSearch name = none → groupName true name = name)
    ∧ (∀ name : Str, groupName false name = '#' :: name) := by
  refine ⟨?_, ?_, ?_⟩
  · intro a b n ha ha' hb hb' hn hn'
    obtain ⟨c, bt, rfl⟩ := List.exists_cons_of_ne_nil hb
    obtain ⟨d, nt, rfl⟩ := List.exists_cons_of_ne_nil hn
    obtain ⟨a0, at0, rfl⟩ := List.exists_cons_of_ne_nil ha
    have hc : c ≠ '-' := fun h => hb' (by rw [h]; exact List.mem_cons_self _ _)
    have hbt : '-' ∉ bt := fun h => hb' (List.mem_cons_of_mem _ h)
    have hd : d.isDigit = true := hn' d (List.mem_cons_self _ _)
    have hdne : d ≠ '-' := by
      intro h
      rw [h] at hd
      exact absurd hd (by decide)
    have heq : "mpdm-".toList ++ ((a0 :: at0) ++ ("--".toList ++ ((c :: bt)
          ++ ("-".toList ++ (d :: nt)))))
        = 'm' :: 'p' :: 'd' :: 'm' :: '-'
            :: ((a0 :: at0) ++ ('-' :: '-' :: (c :: (bt ++ '-' :: (d :: nt))))) := rfl
    rw [heq]
    have hspan1 : spanNH ((a0 :: at0) ++ '-' :: ('-' :: (c :: (bt ++ '-' :: (d :: nt)))))
        = (a0 :: at0, '-' :: ('-' :: (c :: (bt ++ '-' :: (d :: nt))))) :=
      spanNH_pref (a0 :: at0) _ ha'
    have hspan2 : spanNH (bt ++ '-' :: (d :: nt)) = (bt, '-' :: (d :: nt)) :=
      spanNH_pref bt _ hbt
    have hq : eatIters ('-' :: d :: nt) = ([], '-' :: d :: nt) := eatIters_dash d nt hdne
    have hiter : eatIters ('-' :: '-' :: (c :: (bt ++ '-' :: (d :: nt))))
        = ('-' :: '-' :: c :: bt, '-' :: d :: nt) := by
      rw [eatIters_iter c _ hc, hspan2]
      simp [hq]
    have hmatch : matchAt ('m' :: 'p' :: 'd' :: 'm' :: '-'
          :: ((a0 :: at0) ++ ('-' :: '-' :: (c :: (bt ++ '-' :: (d :: nt))))))
        = some (a0 :: at0, '-' :: '-' :: c :: bt) := by
      rw [matchAt]
      rw [if_pos (by decide)]
      rw [hspan1]
      simp only [hiter]
      rw [if_pos (by simp [hd])]
    have hsearch : jsSearch ('m' :: 'p' :: 'd' :: 'm' :: '-'
          :: ((a0 :: at0) ++ ('-' :: '-' :: (c :: (bt ++ '-' :: (d :: nt))))))
        = some (a0 :: at0, '-' :: '-' :: c :: bt) := by
      rw [jsSearch, hmatch]
    have hsplit : splitDD ('-' :: '-' :: c :: bt) = [[], c :: bt] := by
      rw [splitDD]
      rw [if_pos ⟨rfl, rfl⟩, splitDD_nohyph (c :: bt) hb']
    simp only [groupName, hsearch]
    rw [hsplit]
    rfl
  · intro name h
    unfold groupName
    rw [h]
  · intro name
    rfl

/-- C2 witness: the theorem applied at the two-member name mpdm-a--b-1, and at
the name general for both the unmatched multi-party case and the
non-multi-party case. -/
theorem c2_group_name_derivation_witness :
    groupName true "mpdm-a--b-1".toList = "@a, @b".toList
    ∧ jsSearch "general".toList = none
    ∧ groupName true "general".toList = "general".toList
    ∧ groupName false "general".toList = "#general".toList :=
  ⟨c2_group_name_derivation.1 ['a'] ['b'] ['1'] (by decide) (by decide) (by decide)
      (by decide) (by decide) (by decide),
   rfl,
   c2_group_name_derivation.2.1 "general".toList rfl,
   c2_group_name_derivation.2.2 "general".toList⟩

/-- C10: on an ok=true history response whose handler resolves to a mapping M,
for every timestamp key carried by at least two entries, M binds that key
exactly once, to the record normalized from the entry appearing last in the
response's message list (object spread is last-wins). -/
theorem c10_last_wins :
    ∀ (resp : HistoryResponse) (M : SlackChannelMessages) (ts : Str),
      resp.ok = true →
      getConversationHistory resp = Except.ok M →
      2 ≤ (resp.messages.filter (fun m => decide (m.ts = ts))).length →
      ∃ mlast rec,
        (resp.messages.filter (fun m => decide (m.ts = ts))).getLast? = some mlast
        ∧ getMessage mlast = Except.ok [(ts, rec)]
        ∧ objGet M ts = some rec
        ∧ M.countP (fun p => decide (p.1 = ts)) = 1 := by
  intro resp M ts hok hh hlen
  have hh2 : historyFold resp.messages [] = Except.ok M := by
    unfold getConversationHistory at hh
    rw [hok] at hh
    simpa using hh
  have hne : resp.messages.filter (fun m => decide (m.ts = ts)) ≠ [] := by
    intro hx
    rw [hx] at hlen
    simp at hlen
  obtain ⟨f0, t0, hft⟩ := List.exists_cons_of_ne_nil hne
  have hsome : ∃ mlast,
      (resp.messages.filter (fun m => decide (m.ts = ts))).getLast? = some mlast := by
    rw [hft]
    cases hL : (f0 :: t0).getLast? with
    | none => exact absurd hL (lastq_cons_ne_none _ _)
    | some m0 => exact ⟨m0, rfl⟩
  obtain ⟨mlast, hml⟩ := hsome
  obtain ⟨rec, hgm, hobj⟩ := (historyFold_lookup ts resp.messages [] M hh2).2 mlast hml
  have hmem : mlast ∈ resp.messages.filter (fun m => decide (m.ts = ts)) :=
    lastq_mem _ _ hml
  have hts : mlast.ts = ts := of_decide_eq_true (List.mem_filter.mp hmem).2
  have hnodup : keysNodup M :=
    historyFold_nodup resp.messages [] M (by unfold keysNodup; simp) hh2
  refine ⟨mlast, rec, hml, ?_, hobj, countP_key_one M ts rec hnodup hobj⟩
  rw [← hts]
  exact hgm

/-- C10 witness: the theorem applied at a two-entry response sharing the
timestamp key 1, whose handler resolves to the singleton mapping carrying the
record of the second entry. -/
theorem c10_last_wins_witness :
    (⟨true, [rawDupA, rawDupB]⟩ : HistoryResponse).ok = true
    ∧ getConversationHistory ⟨true, [rawDupA, rawDupB]⟩
        = Except.ok [("1".toList, recDupB)]
    ∧ 2 ≤ (([rawDupA, rawDupB] : List RawMessage).filter
        (fun m => decide (m.ts = "1".toList))).length
    ∧ ∃ mlast rec,
        (([rawDupA, rawDupB] : List RawMessage).filter
          (fun m => decide (m.ts = "1".toList))).getLast? = some mlast
        ∧ getMessage mlast = Except.ok [("1".toList, rec)]
        ∧ objGet [("1".toList, recDupB)] "1".toList = some rec
        ∧ ([("1".toList, recDupB)] : SlackChannelMessages).countP
            (fun p => decide (p.1 = "1".toList)) = 1 :=
  ⟨rfl, rfl, by decide,
   c10_last_wins ⟨true, [rawDupA, rawDupB]⟩ [("1".toList, recDupB)] "1".toList
     rfl rfl (by decide)⟩
